import Mathlib

/-!
Verification of the addon-downloader core (`downloader.py`).

The Python source is shallowly embedded:

* `extract_repo_name` — the repository namer (pure string pipeline);
* `extract_github_urls` — the URL extractor, a hand-compiled deterministic
  matcher for the source regex
  `https?://github\.com/[^\s/]+/[^\s)"\']+(?:\.git)?(?=\s|$|[\)\"\'])`
  together with `re.findall` scanning (leftmost, non-overlapping);
* `clone_repository` — the clone task over an abstract filesystem
  (a list of existing paths) and an abstract git backend whose removal and
  clone steps may raise; the try/except boundary is modelled explicitly;
* `download_repositories` — the batch scheduler's aggregation loop, run over
  an arbitrary completion order of the submitted URLs;
* `runPool` — a step semantics of the worker pool honouring the
  `max_workers = min(MAX_WORKERS, total)` cap passed by the source.
-/

/-- Characters Python's `\s` matches within the ASCII range (the inputs the
claims exercise are ASCII). -/
def isPySpace (c : Char) : Bool :=
  c == ' ' || c == '\t' || c == '\n' || c == '\r' || c == '\x0b' || c == '\x0c'

/-- Case-insensitive character comparison, as `re.IGNORECASE` performs on
ASCII letters. -/
def icEq (a b : Char) : Bool := a.toLower == b.toLower

/-- Python's `str.split(sep)` accumulator loop (single-character separator).
Empty pieces are kept, `"".split(sep) == [""]`. -/
def pySplitAux (sep : Char) : List Char → List Char → List (List Char)
  | [], acc => [acc.reverse]
  | c :: cs, acc =>
    if c == sep then acc.reverse :: pySplitAux sep cs []
    else pySplitAux sep cs (c :: acc)

/-- Python's `str.split(sep)` for a single-character separator. -/
def pySplit (sep : Char) (cs : List Char) : List (List Char) :=
  pySplitAux sep cs []

/-- Python's `url.rstrip('/')`: remove every trailing `'/'`. -/
def rstripSlashes (cs : List Char) : List Char :=
  ((cs.reverse).dropWhile (fun c => c == '/')).reverse

/-- Python's `if url.endswith('.git'): url = url[:-4]`. -/
def stripGitSuf (cs : List Char) : List Char :=
  if cs.reverse.take 4 == ['t', 'i', 'g', '.'] then (cs.reverse.drop 4).reverse
  else cs

/-- Embedding of `extract_repo_name` (downloader.py lines 53-70):
`url = url.rstrip('/')`, then strip a trailing `'.git'`, then
`url.split('/')[-1]`. -/
def extract_repo_name (url : String) : String :=
  String.mk ((pySplit '/' (stripGitSuf (rstripSlashes url.toList))).getLastD [])

/-- Spec-side repository namer, following §4.2 of the spec word for word:
"strip any trailing `/`, then strip a trailing `.git` if present, then take
the final `/`-delimited segment" — the final segment computed directly by a
left fold that restarts at each `/`. -/
def repoNameSpec (url : String) : String :=
  String.mk
    ((stripGitSuf (rstripSlashes url.toList)).foldl
      (fun acc c => if c == '/' then [] else acc ++ [c]) [])

/- ### The URL extractor -/

/-- ASCII code 39, the single-quote character appearing in the regex
character class and lookahead. -/
def squoteChar : Char := Char.ofNat 39

/-- ASCII code 34, the double-quote character appearing in the regex
character class and lookahead. -/
def dquoteChar : Char := Char.ofNat 34

/-- Character class `[^\s/]` (the owner path segment). -/
def ownerChar (c : Char) : Bool := !(isPySpace c) && c != '/'

/-- Character class `[^\s)"\']` (the repository part of the URL). Note it
does admit `'/'`. -/
def repoChar (c : Char) : Bool :=
  !(isPySpace c) && c != ')' && c != dquoteChar && c != squoteChar

/-- The literal `http` of the regex, as characters. -/
def uhttp : List Char := ['h', 't', 't', 'p']

/-- The literal `://github.com/` of the regex, as characters. -/
def uhost : List Char :=
  [':', '/', '/', 'g', 'i', 't', 'h', 'u', 'b', '.', 'c', 'o', 'm', '/']

/-- Match a literal pattern case-insensitively at the head of the input,
returning the consumed original characters and the remainder. -/
def dropLitIC : List Char → List Char → Option (List Char × List Char)
  | [], s => some ([], s)
  | _ :: _, [] => none
  | p :: ps, c :: cs =>
    if icEq p c then
      match dropLitIC ps cs with
      | some (m, r) => some (c :: m, r)
      | none => none
    else none

/-- The lookahead `(?=\s|$|[\)\"\'])` of the regex. -/
def lookaheadOk : List Char → Bool
  | [] => true
  | c :: _ => isPySpace c || c == ')' || c == dquoteChar || c == squoteChar

/-- Match `https?://github\.com/` at the head of the input.  The optional
`s` is taken greedily; this loses no match, because when the next character
is an `s`/`S` the non-greedy alternative would immediately need it to be the
literal `:`. -/
def matchScheme (s : List Char) : Option (List Char × List Char) :=
  match dropLitIC uhttp s with
  | none => none
  | some (m1, r1) =>
    match r1 with
    | c :: cs =>
      if icEq 's' c then
        match dropLitIC uhost cs with
        | none => none
        | some (m2, r) => some (m1 ++ [c] ++ m2, r)
      else
        match dropLitIC uhost (c :: cs) with
        | none => none
        | some (m2, r) => some (m1 ++ m2, r)
    | [] => none

/-- Match the whole source regex at the head of the input, returning the
matched characters and the remainder.

Determinism notes, justifying the absence of backtracking:
* the greedy `[^\s/]+` (owner) is cut exactly at the next `/`, whitespace or
  end; shortening it can never expose the required literal `/`, since every
  consumed character is not `/`;
* after the maximal run of `[^\s)"\']+`, the next character (if any) is
  whitespace, `)`, `"` or the single quote — precisely the alternatives of
  the lookahead `(?=\s|$|[\)\"\'])`, so the lookahead always holds there and
  the engine never backtracks into the `+`;
* the optional `(?:\.git)?` can never consume anything, because `.` belongs
  to the class `[^\s)"\']` and was therefore already swallowed by the
  maximal run. -/
def matchUrlAt (s : List Char) : Option (List Char × List Char) :=
  match matchScheme s with
  | none => none
  | some (mh, r3) =>
    match r3.dropWhile ownerChar with
    | c :: r5 =>
      if c = '/' then
        if (r3.takeWhile ownerChar).isEmpty then none
        else if (r5.takeWhile repoChar).isEmpty then none
        else if lookaheadOk (r5.dropWhile repoChar) then
          some (mh ++ r3.takeWhile ownerChar ++ '/' :: r5.takeWhile repoChar,
            r5.dropWhile repoChar)
        else none
      else none
    | [] => none

/-- `re.findall` scanning: try the pattern at each position from the left;
on a match, continue after it (matches never overlap).  The fuel argument is
the remaining input length; every match consumes at least one character, so
the fuel never runs out before the input does. -/
def scanAux : Nat → List Char → List String
  | 0, _ => []
  | _, [] => []
  | Nat.succ fuel, c :: cs =>
    match matchUrlAt (c :: cs) with
    | some (m, r) => String.mk m :: scanAux fuel r
    | none => scanAux fuel cs

/-- Embedding of `extract_github_urls` (downloader.py lines 30-50):
`set(re.findall(github_pattern, text, re.IGNORECASE))`.  The Python set is
modelled as the duplicate-free list of found matches. -/
def extract_github_urls (text : String) : List String :=
  (scanAux text.toList.length text.toList).dedup

/-- Character class of a path segment as §4.1 of the spec describes it:
non-whitespace and not a further `/`. -/
def segNoSlash (c : Char) : Bool := !(isPySpace c) && c != '/'

/-- Spec-side predicate for claim C7, following the spec words: the string
is `http(s)://github.com/<owner>/<repo>` — scheme and host case-insensitive,
an owner segment, and a repo segment (optionally ending in `.git`) with no
further `/`-separated path segments and nothing after it. -/
def conformsRepoAddr (s : String) : Bool :=
  match matchScheme s.toList with
  | none => false
  | some (_, r3) =>
    match r3.dropWhile segNoSlash with
    | c :: r5 =>
      if c = '/' then
        !(r3.takeWhile segNoSlash).isEmpty && !r5.isEmpty && r5.all segNoSlash
      else false
    | [] => false

/-- Amended shape predicate for claim C7: as `conformsRepoAddr`, except that
the repository part is only required to be non-empty and free of whitespace,
`)`, `"` and `'` — it may itself contain further `/` characters. -/
def repoAddrLoose (s : String) : Bool :=
  match matchScheme s.toList with
  | none => false
  | some (_, r3) =>
    match r3.dropWhile ownerChar with
    | c :: r5 =>
      if c = '/' then
        !(r3.takeWhile ownerChar).isEmpty && !r5.isEmpty && r5.all repoChar
      else false
    | [] => false

/- ### Filesystem and clone-task model -/

/-- A directory path, as its list of components relative to the filesystem
root. -/
abbrev DirPath := List String

/-- An abstract filesystem: the list of currently existing nodes. -/
abbrev Fs := List DirPath

/-- The Python exception hierarchy as the clone task observes it:
`GitCommandError` (from `git.exc`), an `OSError` from the filesystem calls,
or any other exception.  All of them are subclasses of `Exception`. -/
inductive PyErr where
  | gitCommandError (msg : String)
  | osError (msg : String)
  | otherExc (msg : String)
deriving DecidableEq

/-- `pathlib`'s `/` operator for a single component: an empty component is
dropped, so `dest / "" == dest`. -/
def pathDiv (p : DirPath) (s : String) : DirPath :=
  if s = "" then p else p ++ [s]

/-- `p` is `q` itself or an ancestor of `q`. -/
def pathUnder : DirPath → DirPath → Bool
  | [], _ => true
  | _ :: _, [] => false
  | a :: as, b :: bs => a == b && pathUnder as bs

/-- `Path.exists()` on the abstract filesystem. -/
def pexists (fs : Fs) (p : DirPath) : Bool := decide (p ∈ fs)

/-- `shutil.rmtree(p)`: every node at or below `p` disappears. -/
def rmtreeFs (fs : Fs) (p : DirPath) : Fs :=
  fs.filter (fun q => !(pathUnder p q))

/-- A filesystem mutation performed by the clone task. -/
inductive FsOp where
  | rmtree (path : DirPath)
  | cloneInto (url : String) (path : DirPath)
deriving DecidableEq

/-- The abstract git/filesystem backend: whether `shutil.rmtree` raises at a
path, whether `Repo.clone_from` raises for a URL and target, and the nodes a
successful clone creates. -/
structure GitBeh where
  rmtreeErr : DirPath → Option PyErr
  cloneErr : String → DirPath → Option PyErr
  cloneFiles : String → DirPath → List DirPath

/-- The `try:` block of `clone_repository` (downloader.py lines 87-96): if
the target exists, remove it, then clone; any step may raise, in which case
the partial filesystem state and the mutations performed so far are kept. -/
def clone_repository_try (beh : GitBeh) (url : String) (dest : DirPath) (fs : Fs) :
    Except PyErr Bool × Fs × List FsOp :=
  let repo_path := pathDiv dest (extract_repo_name url)
  if pexists fs repo_path then
    match beh.rmtreeErr repo_path with
    | some e => (Except.error e, fs, [])
    | none =>
      let fs1 := rmtreeFs fs repo_path
      match beh.cloneErr url repo_path with
      | some e => (Except.error e, fs1, [FsOp.rmtree repo_path])
      | none =>
        (Except.ok true, fs1 ++ beh.cloneFiles url repo_path,
          [FsOp.rmtree repo_path, FsOp.cloneInto url repo_path])
  else
    match beh.cloneErr url repo_path with
    | some e => (Except.error e, fs, [])
    | none =>
      (Except.ok true, fs ++ beh.cloneFiles url repo_path,
        [FsOp.cloneInto url repo_path])

/-- Embedding of `clone_repository` (downloader.py lines 73-104): the try
block wrapped in `except GitCommandError` and `except Exception`, both of
which return `False`.  The result is the reported outcome, the final
filesystem, and the mutations performed. -/
def clone_repository (beh : GitBeh) (url : String) (dest : DirPath) (fs : Fs) :
    Bool × Fs × List FsOp :=
  match clone_repository_try beh url dest fs with
  | (Except.ok b, fs1, ops) => (b, fs1, ops)
  | (Except.error (PyErr.gitCommandError _), fs1, ops) => (false, fs1, ops)
  | (Except.error _, fs1, ops) => (false, fs1, ops)

/- ### Batch scheduler -/

/-- The `ok` computed by the collection loop of `download_repositories`
(downloader.py lines 125-129): the task's result, with any exception raised
by `future.result()` converted to `False`. -/
def okOf (res : String → Except PyErr Bool) (u : String) : Bool :=
  match res u with
  | Except.ok b => b
  | Except.error _ => false

/-- One iteration of the collection loop (downloader.py lines 131-135):
bump the success counter, or bump the failure counter and append the URL to
`failed_repos`. -/
def aggStep (res : String → Except PyErr Bool) (acc : Nat × Nat × List String)
    (u : String) : Nat × Nat × List String :=
  if okOf res u then (acc.1 + 1, acc.2.1, acc.2.2)
  else (acc.1, acc.2.1 + 1, acc.2.2 ++ [u])

/-- Python's `sorted(urls)` modelled by insertion sort over `Ord String`;
only the fact that it permutes its input is used. -/
def insertSorted (a : String) : List String → List String
  | [] => [a]
  | b :: bs =>
    match compare a b with
    | Ordering.gt => b :: insertSorted a bs
    | _ => a :: b :: bs

/-- `url_list = sorted(urls)` (downloader.py line 118). -/
def url_list (urls : List String) : List String :=
  urls.foldr insertSorted []

/-- Embedding of `download_repositories` (downloader.py lines 107-138).
`urls` is the submitted set (a duplicate-free list), `res` gives each task's
result as `future.result()` reports it, and `order` is the completion order
produced by `as_completed` — an arbitrary permutation of
`url_list urls = sorted(urls)`.  Returns
`(successful, failed, failed_repos)`. -/
def download_repositories (urls : List String) (res : String → Except PyErr Bool)
    (order : List String) : Nat × Nat × List String :=
  if urls.length = 0 then (0, 0, [])
  else order.foldl (aggStep res) (0, 0, [])

/- ### Worker pool model -/

/-- `MAX_WORKERS = 12` (downloader.py line 27). -/
def MAX_WORKERS : Nat := 12

/-- `max_workers = min(MAX_WORKERS, total)` (downloader.py line 113). -/
def schedCap (total : Nat) : Nat := min MAX_WORKERS total

/-- State of the worker pool: tasks not yet started, and tasks currently
running. -/
structure PoolState where
  pending : Nat
  running : Nat
deriving DecidableEq

/-- A scheduling event: a task starts, or a task finishes. -/
inductive PoolEv where
  | start
  | finish
deriving DecidableEq

/-- One step of the `ThreadPoolExecutor` contract: a task may start only
while fewer than `cap` tasks are running; a running task may finish. -/
def poolStep (cap : Nat) (st : PoolState) : PoolEv → Option PoolState
  | PoolEv.start =>
    if 0 < st.pending ∧ st.running < cap then
      some ⟨st.pending - 1, st.running + 1⟩
    else none
  | PoolEv.finish =>
    if 0 < st.running then some ⟨st.pending, st.running - 1⟩ else none

/-- Run a sequence of scheduling events from a state; `none` if some event
violates the pool contract. -/
def runPool (cap : Nat) (st : PoolState) : List PoolEv → Option PoolState
  | [] => some st
  | ev :: evs =>
    match poolStep cap st ev with
    | some st1 => runPool cap st1 evs
    | none => none

/- ### Lemmas about the repository namer -/

/-- The last piece of Python's split loop equals the left fold that restarts
at every separator. -/
theorem pySplitAux_getLastD (sep : Char) :
    ∀ (l acc : List Char) (d : List Char),
      (pySplitAux sep l acc).getLastD d
        = l.foldl (fun a c => if c == sep then [] else a ++ [c]) acc.reverse := by
  intro l
  induction l with
  | nil => intro acc d; rfl
  | cons c cs ih =>
    intro acc d
    by_cases hc : (c == sep) = true
    · simp only [pySplitAux, hc, if_true, List.foldl_cons, List.getLastD_cons]
      simpa using ih [] acc.reverse
    · have hc' : (c == sep) = false := by simpa using hc
      simp only [pySplitAux, hc', Bool.false_eq_true, if_false, List.foldl_cons]
      rw [ih (c :: acc) d]
      simp

/-- The restarting left fold never lets a separator into its accumulator. -/
theorem lastSegFold_all_ne (sep : Char) :
    ∀ (l acc : List Char), acc.all (fun c => c != sep) = true →
      (l.foldl (fun a c => if c == sep then [] else a ++ [c]) acc).all
          (fun c => c != sep) = true := by
  intro l
  induction l with
  | nil => intro acc h; exact h
  | cons c cs ih =>
    intro acc h
    by_cases hc : (c == sep) = true
    · simp only [List.foldl_cons, hc, if_true]
      exact ih [] rfl
    · simp only [List.foldl_cons, hc, if_false]
      apply ih
      simp_all

/-- Both repository-name definitions compute the same string. -/
theorem extract_repo_name_eq_spec (url : String) :
    extract_repo_name url = repoNameSpec url := by
  unfold extract_repo_name repoNameSpec pySplit
  exact congrArg String.mk (pySplitAux_getLastD '/' _ [] [])

/- ### Lemmas about the aggregation loop -/

/-- Closed form of the collection loop of `download_repositories`. -/
theorem agg_foldl (res : String → Except PyErr Bool) :
    ∀ (order : List String) (s f : Nat) (fr : List String),
      order.foldl (aggStep res) (s, f, fr)
        = (s + order.countP (fun u => okOf res u),
           f + order.countP (fun u => !(okOf res u)),
           fr ++ order.filter (fun u => !(okOf res u))) := by
  intro order
  induction order with
  | nil => intro s f fr; simp
  | cons u os ih =>
    intro s f fr
    by_cases h : okOf res u = true
    · simp only [List.foldl_cons, aggStep, h, if_true, ih, List.countP_cons,
        List.filter_cons, Bool.not_eq_true', Bool.not_true]
      refine Prod.ext ?_ (Prod.ext ?_ ?_) <;> (simp [h]; try omega)
    · simp only [List.foldl_cons, aggStep, h, if_false, ih, List.countP_cons,
        List.filter_cons, Bool.not_eq_true] at *
      refine Prod.ext ?_ (Prod.ext ?_ ?_) <;> (simp [h]; try omega)

/-- Counting the predicate and its negation exhausts the list. -/
theorem countP_not_add (p : String → Bool) (l : List String) :
    l.countP p + l.countP (fun a => !(p a)) = l.length := by
  induction l with
  | nil => rfl
  | cons a l ih =>
    by_cases h : p a = true <;>
      simp [List.countP_cons, h] <;> omega

/-- Membership in the failed list, for a non-empty batch. -/
theorem download_failed_mem (urls : List String)
    (res : String → Except PyErr Bool) (order : List String)
    (hne : urls ≠ []) (v : String) :
    (v ∈ (download_repositories urls res order).2.2)
      ↔ (v ∈ order ∧ okOf res v = false) := by
  unfold download_repositories
  rw [if_neg (by simpa using hne)]
  rw [agg_foldl]
  simp [List.mem_filter]

/-- `insertSorted` permutes. -/
theorem insertSorted_perm (a : String) (l : List String) :
    (insertSorted a l).Perm (a :: l) := by
  induction l with
  | nil => exact List.Perm.refl _
  | cons b bs ih =>
    unfold insertSorted
    cases compare a b with
    | gt => exact (ih.cons b).trans (List.Perm.swap a b bs)
    | lt => exact List.Perm.refl _
    | eq => exact List.Perm.refl _

/-- `url_list urls = sorted(urls)` permutes the submitted URLs. -/
theorem url_list_perm (urls : List String) : (url_list urls).Perm urls := by
  induction urls with
  | nil => exact List.Perm.refl _
  | cons u us ih =>
    exact (insertSorted_perm u (url_list us)).trans (ih.cons u)

/- ### Claim theorems -/

/-- C1: for every batch of submitted URLs, the scheduler yields exactly one
outcome per URL: `successful + failed` equals the number of submitted URLs,
the failed list has length `failed`, a submitted URL is in the failed list
iff its own task reported failure, every submitted URL is completed exactly
once, and every entry of the failed list is a submitted URL. -/
theorem c1_batch_result_accounting (urls : List String) (hn : urls.Nodup)
    (res : String → Except PyErr Bool) (order : List String)
    (hperm : order.Perm (url_list urls)) (u : String) (hu : u ∈ urls) :
    (download_repositories urls res order).1
        + (download_repositories urls res order).2.1 = urls.length
    ∧ (download_repositories urls res order).2.2.length
        = (download_repositories urls res order).2.1
    ∧ ((u ∈ (download_repositories urls res order).2.2) ↔ okOf res u = false)
    ∧ order.count u = 1
    ∧ (download_repositories urls res order).2.2.all
        (fun w => decide (w ∈ urls)) = true := by
  have hperm2 : order.Perm urls := hperm.trans (url_list_perm urls)
  have hne : urls ≠ [] := List.ne_nil_of_mem hu
  have hd : download_repositories urls res order
      = (order.countP (fun w => okOf res w),
         order.countP (fun w => !(okOf res w)),
         order.filter (fun w => !(okOf res w))) := by
    unfold download_repositories
    rw [if_neg (by simpa using hne), agg_foldl]
    simp
  refine ⟨?_, ?_, ?_, ?_, ?_⟩
  · rw [hd]
    simpa [countP_not_add] using hperm2.length_eq
  · rw [hd]
    simp [List.countP_eq_length_filter]
  · rw [hd]
    simp [List.mem_filter, hperm2.mem_iff.mpr hu]
  · rw [hperm2.count_eq]
    exact List.count_eq_one_of_mem hn hu
  · rw [hd]
    simp only [List.all_eq_true]
    intro w hw
    have := (List.mem_filter.mp hw).1
    simpa using hperm2.mem_iff.mp this

/-- Witness for C1 at a concrete two-URL batch where the second clone
fails. -/
theorem c1_batch_result_accounting_witness :
    (download_repositories
        ["https://github.com/a/x", "https://github.com/b/y"]
        (fun w => if w = "https://github.com/b/y"
          then Except.error (PyErr.gitCommandError "boom") else Except.ok true)
        ["https://github.com/b/y", "https://github.com/a/x"]).1
      + (download_repositories
        ["https://github.com/a/x", "https://github.com/b/y"]
        (fun w => if w = "https://github.com/b/y"
          then Except.error (PyErr.gitCommandError "boom") else Except.ok true)
        ["https://github.com/b/y", "https://github.com/a/x"]).2.1
      = (["https://github.com/a/x", "https://github.com/b/y"] : List String).length
    ∧ (download_repositories
        ["https://github.com/a/x", "https://github.com/b/y"]
        (fun w => if w = "https://github.com/b/y"
          then Except.error (PyErr.gitCommandError "boom") else Except.ok true)
        ["https://github.com/b/y", "https://github.com/a/x"]).2.2.length
      = (download_repositories
        ["https://github.com/a/x", "https://github.com/b/y"]
        (fun w => if w = "https://github.com/b/y"
          then Except.error (PyErr.gitCommandError "boom") else Except.ok true)
        ["https://github.com/b/y", "https://github.com/a/x"]).2.1
    ∧ (("https://github.com/b/y"
        ∈ (download_repositories
          ["https://github.com/a/x", "https://github.com/b/y"]
          (fun w => if w = "https://github.com/b/y"
            then Except.error (PyErr.gitCommandError "boom") else Except.ok true)
          ["https://github.com/b/y", "https://github.com/a/x"]).2.2)
        ↔ okOf (fun w => if w = "https://github.com/b/y"
            then Except.error (PyErr.gitCommandError "boom") else Except.ok true)
            "https://github.com/b/y" = false)
    ∧ (["https://github.com/b/y", "https://github.com/a/x"] : List String).count
        "https://github.com/b/y" = 1
    ∧ (download_repositories
        ["https://github.com/a/x", "https://github.com/b/y"]
        (fun w => if w = "https://github.com/b/y"
          then Except.error (PyErr.gitCommandError "boom") else Except.ok true)
        ["https://github.com/b/y", "https://github.com/a/x"]).2.2.all
        (fun w => decide (w ∈ (["https://github.com/a/x",
            "https://github.com/b/y"] : List String))) = true :=
  c1_batch_result_accounting
    ["https://github.com/a/x", "https://github.com/b/y"] (by decide)
    (fun w => if w = "https://github.com/b/y"
      then Except.error (PyErr.gitCommandError "boom") else Except.ok true)
    ["https://github.com/b/y", "https://github.com/a/x"] (by decide)
    "https://github.com/b/y" (by decide)

/-- C2: the clone task never raises past its boundary — its reported
outcome is `True` exactly when the try block ran to a successful clone, and
every raised exception (git command error, filesystem error, or any other)
becomes a `False` outcome; moreover one task's failure does not alter any
other submitted URL's outcome in the batch. -/
theorem c2_task_error_containment (beh : GitBeh) (url : String)
    (dest : DirPath) (fs : Fs) (urls : List String)
    (res res' : String → Except PyErr Bool) (order : List String)
    (u v : String)
    (hagree : ∀ w, w ≠ u → res w = res' w) (hvu : v ≠ u) :
    ((clone_repository beh url dest fs).1 = true
      ↔ (clone_repository_try beh url dest fs).1 = Except.ok true)
    ∧ ((v ∈ (download_repositories urls res order).2.2)
      ↔ (v ∈ (download_repositories urls res' order).2.2)) := by
  constructor
  · rcases h : clone_repository_try beh url dest fs with ⟨exc, fs1, ops⟩
    cases exc with
    | ok b =>
      cases b <;> simp [clone_repository, h]
    | error e =>
      cases e <;> simp [clone_repository, h]
  · have hok : okOf res v = okOf res' v := by
      unfold okOf
      rw [hagree v hvu]
    unfold download_repositories
    by_cases hz : urls.length = 0
    · simp [hz]
    · rw [if_neg hz, if_neg hz, agg_foldl, agg_foldl]
      simp [List.mem_filter, hok]

/-- Witness for C2: a concrete task/batch where `res` and `res'` differ only
at the failing URL. -/
theorem c2_task_error_containment_witness :
    ((clone_repository
        ⟨fun _ => none, fun _ _ => none, fun _ _ => []⟩
        "https://github.com/a/x" ["AddOns"] []).1 = true
      ↔ (clone_repository_try
        ⟨fun _ => none, fun _ _ => none, fun _ _ => []⟩
        "https://github.com/a/x" ["AddOns"] []).1 = Except.ok true)
    ∧ (("https://github.com/a/x"
        ∈ (download_repositories
          ["https://github.com/a/x", "https://github.com/b/y"]
          (fun w => if w = "https://github.com/b/y"
            then Except.ok true else Except.ok true)
          ["https://github.com/a/x", "https://github.com/b/y"]).2.2)
      ↔ ("https://github.com/a/x"
        ∈ (download_repositories
          ["https://github.com/a/x", "https://github.com/b/y"]
          (fun w => if w = "https://github.com/b/y"
            then Except.error (PyErr.otherExc "boom") else Except.ok true)
          ["https://github.com/a/x", "https://github.com/b/y"]).2.2)) :=
  c2_task_error_containment
    ⟨fun _ => none, fun _ _ => none, fun _ _ => []⟩
    "https://github.com/a/x" ["AddOns"] []
    ["https://github.com/a/x", "https://github.com/b/y"]
    (fun w => if w = "https://github.com/b/y"
      then Except.ok true else Except.ok true)
    (fun w => if w = "https://github.com/b/y"
      then Except.error (PyErr.otherExc "boom") else Except.ok true)
    ["https://github.com/a/x", "https://github.com/b/y"]
    "https://github.com/b/y" "https://github.com/a/x"
    (fun w hw => by simp [hw]) (by decide)

/-- C3: the claim that the clone task never deletes the destination root is
violated by the code.  For the URL `https://github.com/a/b/.git` the derived
repository name is empty, `pathlib` collapses `dest / ""` to `dest` itself,
and the task `rmtree`s the destination root before the clone attempt fails:
starting from a filesystem holding the root and a file inside it, the
performed mutation list is exactly `rmtree` of the destination root, and the
root is gone from the final filesystem. -/
theorem c3_destination_root_deleted :
    extract_repo_name "https://github.com/a/b/.git" = ""
    ∧ clone_repository
        ⟨fun _ => none, fun _ _ => some (PyErr.gitCommandError "remote error"),
          fun _ _ => []⟩
        "https://github.com/a/b/.git" ["home", "AddOns"]
        [["home"], ["home", "AddOns"], ["home", "AddOns", "old"]]
      = (false, [["home"]], [FsOp.rmtree ["home", "AddOns"]]) := by
  exact ⟨by decide, by decide⟩

/-- Worker-count invariant of the pool step semantics. -/
theorem runPool_running_le (cap : Nat) :
    ∀ (tr : List PoolEv) (st st' : PoolState), st.running ≤ cap →
      runPool cap st tr = some st' → st'.running ≤ cap := by
  intro tr
  induction tr with
  | nil =>
    intro st st' hle h
    cases h
    exact hle
  | cons ev evs ih =>
    intro st st' hle h
    cases ev with
    | start =>
      unfold runPool poolStep at h
      by_cases hc : 0 < st.pending ∧ st.running < cap
      · rw [if_pos hc] at h
        exact ih _ st' (Nat.succ_le_of_lt hc.2) h
      · rw [if_neg hc] at h
        cases h
    | finish =>
      unfold runPool poolStep at h
      by_cases hc : 0 < st.running
      · rw [if_pos hc] at h
        exact ih _ st' (le_trans (Nat.sub_le _ _) hle) h
      · rw [if_neg hc] at h
        cases h

/-- C4: for a batch of `N` URLs the pool is created with cap
`min(MAX_WORKERS, N)`, so along every valid execution of the pool contract
the number of simultaneously running clone tasks never exceeds
`min(MAX_WORKERS, N)`. -/
theorem c4_concurrency_cap (urls : List String) (tr : List PoolEv)
    (st' : PoolState)
    (h : runPool (schedCap urls.length) ⟨urls.length, 0⟩ tr = some st') :
    st'.running ≤ min MAX_WORKERS urls.length :=
  runPool_running_le (schedCap urls.length) tr ⟨urls.length, 0⟩ st'
    (Nat.zero_le _) h

/-- Witness for C4: a three-URL batch after two starts has two running
tasks, within the cap. -/
theorem c4_concurrency_cap_witness :
    (⟨1, 2⟩ : PoolState).running
      ≤ min MAX_WORKERS (["https://github.com/a/x", "https://github.com/b/y",
          "https://github.com/c/z"] : List String).length :=
  c4_concurrency_cap
    ["https://github.com/a/x", "https://github.com/b/y",
      "https://github.com/c/z"]
    [PoolEv.start, PoolEv.start] ⟨1, 2⟩ (by decide)

/-- C5: the repository namer strips trailing `/` characters, then a trailing
`.git`, then takes the final `/`-delimited segment (the spec-side pipeline
`repoNameSpec` computes the same string for every URL), and yields `"b"` on
the three example URLs. -/
theorem c5_repo_name_algorithm (url : String) :
    extract_repo_name url = repoNameSpec url
    ∧ extract_repo_name "https://github.com/a/b.git" = "b"
    ∧ extract_repo_name "https://github.com/a/b/" = "b"
    ∧ extract_repo_name "https://github.com/a/b" = "b" :=
  ⟨extract_repo_name_eq_spec url, by decide, by decide, by decide⟩

/-- C8: a URL whose derived repository name is empty still yields an
ordinary per-URL Failure — the clone backend rejects it, the task returns
`False` without raising, and every other URL of the batch keeps the outcome
its own task produced. -/
theorem c8_empty_name_failure (beh : GitBeh) (url : String) (dest : DirPath)
    (fs : Fs) (e : PyErr)
    (_hname : extract_repo_name url = "")
    (hclone : beh.cloneErr url (pathDiv dest (extract_repo_name url)) = some e)
    (urls : List String) (res : String → Except PyErr Bool)
    (order : List String) (hu : url ∈ urls) (v : String) :
    (clone_repository beh url dest fs).1 = false
    ∧ ((v ∈ (download_repositories urls res order).2.2)
      ↔ (v ∈ order ∧ okOf res v = false)) := by
  constructor
  · unfold clone_repository clone_repository_try
    by_cases hex : pexists fs (pathDiv dest (extract_repo_name url)) = true
    · rw [if_pos hex]
      cases hrm : beh.rmtreeErr (pathDiv dest (extract_repo_name url)) with
      | some e2 => cases e2 <;> simp
      | none => cases e <;> simp [hclone]
    · rw [if_neg hex]
      cases e <;> simp [hclone]
  · exact download_failed_mem urls res order (List.ne_nil_of_mem hu) v

/-- Witness for C8 at the concrete malformed URL
`https://github.com/a/b/.git` in a two-URL batch. -/
theorem c8_empty_name_failure_witness :
    (clone_repository
        ⟨fun _ => none, fun _ _ => some (PyErr.gitCommandError "not found"),
          fun _ _ => []⟩
        "https://github.com/a/b/.git" ["AddOns"] []).1 = false
    ∧ (("https://github.com/c/z"
        ∈ (download_repositories
          ["https://github.com/a/b/.git", "https://github.com/c/z"]
          (fun _ => Except.ok true)
          ["https://github.com/a/b/.git", "https://github.com/c/z"]).2.2)
      ↔ ("https://github.com/c/z"
          ∈ (["https://github.com/a/b/.git",
              "https://github.com/c/z"] : List String)
        ∧ okOf (fun _ => Except.ok true) "https://github.com/c/z" = false)) :=
  c8_empty_name_failure
    ⟨fun _ => none, fun _ _ => some (PyErr.gitCommandError "not found"),
      fun _ _ => []⟩
    "https://github.com/a/b/.git" ["AddOns"] []
    (PyErr.gitCommandError "not found") (by decide) (by decide)
    ["https://github.com/a/b/.git", "https://github.com/c/z"]
    (fun _ => Except.ok true)
    ["https://github.com/a/b/.git", "https://github.com/c/z"]
    (by decide) "https://github.com/c/z"

/-- C9: when the target path already exists and both backend steps succeed,
the task removes the target entirely, then clones — the mutation list is
exactly `rmtree` followed by `cloneInto` on the target — and every node of
the final filesystem lying under the target comes from the fresh clone, so
no stale file survives. -/
theorem c9_replace_before_clone (beh : GitBeh) (url : String) (dest : DirPath)
    (fs : Fs)
    (hex : pexists fs (pathDiv dest (extract_repo_name url)) = true)
    (hrm : beh.rmtreeErr (pathDiv dest (extract_repo_name url)) = none)
    (hcl : beh.cloneErr url (pathDiv dest (extract_repo_name url)) = none)
    (q : DirPath)
    (hq : q ∈ (clone_repository beh url dest fs).2.1)
    (hunder : pathUnder (pathDiv dest (extract_repo_name url)) q = true) :
    (clone_repository beh url dest fs).1 = true
    ∧ (clone_repository beh url dest fs).2.2
        = [FsOp.rmtree (pathDiv dest (extract_repo_name url)),
           FsOp.cloneInto url (pathDiv dest (extract_repo_name url))]
    ∧ q ∈ beh.cloneFiles url (pathDiv dest (extract_repo_name url)) := by
  have hrun : clone_repository beh url dest fs
      = (true,
         rmtreeFs fs (pathDiv dest (extract_repo_name url))
           ++ beh.cloneFiles url (pathDiv dest (extract_repo_name url)),
         [FsOp.rmtree (pathDiv dest (extract_repo_name url)),
          FsOp.cloneInto url (pathDiv dest (extract_repo_name url))]) := by
    unfold clone_repository clone_repository_try
    rw [if_pos hex, hrm, hcl]
  rw [hrun] at hq
  refine ⟨by rw [hrun], by rw [hrun], ?_⟩
  rcases List.mem_append.mp hq with hmem | hmem
  · have := (List.mem_filter.mp hmem).2
    rw [hunder] at this
    cases this
  · exact hmem

/-- Witness for C9: cloning `https://github.com/x/one` over an existing
`AddOns/one` containing a stale file. -/
theorem c9_replace_before_clone_witness :
    (clone_repository
        ⟨fun _ => none, fun _ _ => none,
          fun _ p => [p ++ ["README"]]⟩
        "https://github.com/x/one" ["AddOns"]
        [["AddOns"], ["AddOns", "one"], ["AddOns", "one", "stale"]]).1 = true
    ∧ (clone_repository
        ⟨fun _ => none, fun _ _ => none,
          fun _ p => [p ++ ["README"]]⟩
        "https://github.com/x/one" ["AddOns"]
        [["AddOns"], ["AddOns", "one"], ["AddOns", "one", "stale"]]).2.2
      = [FsOp.rmtree (pathDiv ["AddOns"]
            (extract_repo_name "https://github.com/x/one")),
         FsOp.cloneInto "https://github.com/x/one"
           (pathDiv ["AddOns"] (extract_repo_name "https://github.com/x/one"))]
    ∧ (["AddOns", "one", "README"] : DirPath)
      ∈ (⟨fun _ => none, fun _ _ => none,
          fun _ p => [p ++ ["README"]]⟩ : GitBeh).cloneFiles
          "https://github.com/x/one"
          (pathDiv ["AddOns"] (extract_repo_name "https://github.com/x/one")) :=
  c9_replace_before_clone
    ⟨fun _ => none, fun _ _ => none, fun _ p => [p ++ ["README"]]⟩
    "https://github.com/x/one" ["AddOns"]
    [["AddOns"], ["AddOns", "one"], ["AddOns", "one", "stale"]]
    (by decide) rfl rfl
    ["AddOns", "one", "README"] (by decide) (by decide)

/-- C10: for every input string the repository namer totally computes a name
containing no `/` character, so a non-empty name makes the clone target a
direct child of the destination directory. -/
theorem c10_name_no_slash (url : String) (dest : DirPath)
    (hne : extract_repo_name url ≠ "") :
    ((extract_repo_name url).toList.all (fun c => c != '/')) = true
    ∧ pathDiv dest (extract_repo_name url) = dest ++ [extract_repo_name url] := by
  constructor
  · show ((pySplit '/' (stripGitSuf (rstripSlashes url.toList))).getLastD []).all
        (fun c => c != '/') = true
    unfold pySplit
    rw [pySplitAux_getLastD]
    exact lastSegFold_all_ne '/' _ [] rfl
  · unfold pathDiv
    rw [if_neg hne]

/-- Witness for C10 at `https://github.com/a/b`. -/
theorem c10_name_no_slash_witness :
    ((extract_repo_name "https://github.com/a/b").toList.all
        (fun c => c != '/')) = true
    ∧ pathDiv ["AddOns"] (extract_repo_name "https://github.com/a/b")
      = ["AddOns"] ++ [extract_repo_name "https://github.com/a/b"] :=
  c10_name_no_slash "https://github.com/a/b" ["AddOns"] (by decide)

/- ### Lemmas about the URL matcher -/

/-- Re-running a case-insensitive literal match on its own consumed
characters (followed by anything) consumes exactly them again. -/
theorem dropLitIC_replay :
    ∀ (pat s m r : List Char), dropLitIC pat s = some (m, r) →
      ∀ t, dropLitIC pat (m ++ t) = some (m, t) := by
  intro pat
  induction pat with
  | nil =>
    intro s m r h t
    unfold dropLitIC at h
    injection h with h1
    injection h1 with h1 h2
    subst h1
    rfl
  | cons p ps ih =>
    intro s m r h t
    cases s with
    | nil => exact absurd h (by simp [dropLitIC])
    | cons c cs =>
      unfold dropLitIC at h
      by_cases hic : icEq p c = true
      · rw [if_pos hic] at h
        cases hin : dropLitIC ps cs with
        | none => rw [hin] at h; cases h
        | some pr =>
          rcases pr with ⟨m2, r2⟩
          rw [hin] at h
          injection h with h1
          injection h1 with h1 h2
          subst h1
          show dropLitIC (p :: ps) (c :: (m2 ++ t)) = some (c :: m2, t)
          unfold dropLitIC
          rw [if_pos hic, ih cs m2 r2 hin t]
      · rw [if_neg hic] at h; cases h

/-- A successful literal match on a cons consumes that head character, and
the head satisfies the case-insensitive comparison with the pattern head. -/
theorem dropLitIC_cons_shape (p : Char) (ps : List Char) (c : Char)
    (cs m r : List Char) (h : dropLitIC (p :: ps) (c :: cs) = some (m, r)) :
    ∃ m2, m = c :: m2 ∧ icEq p c = true := by
  unfold dropLitIC at h
  by_cases hic : icEq p c = true
  · rw [if_pos hic] at h
    cases hin : dropLitIC ps cs with
    | none => rw [hin] at h; cases h
    | some pr =>
      rcases pr with ⟨m2, r2⟩
      rw [hin] at h
      injection h with h1
      injection h1 with h1 h2
      exact ⟨m2, h1.symm, hic⟩
  · rw [if_neg hic] at h; cases h

/-- Re-running the scheme/host matcher on its own consumed characters
(followed by anything) consumes exactly them again. -/
theorem matchScheme_replay :
    ∀ (s mh r : List Char), matchScheme s = some (mh, r) →
      ∀ t, matchScheme (mh ++ t) = some (mh, t) := by
  intro s mh r h t
  cases h1 : dropLitIC uhttp s with
  | none => simp only [matchScheme, h1] at h; cases h
  | some pr1 =>
    rcases pr1 with ⟨m1, r1⟩
    cases r1 with
    | nil => simp only [matchScheme, h1] at h; cases h
    | cons c cs =>
      by_cases hs : icEq 's' c = true
      · cases h2 : dropLitIC uhost cs with
        | none =>
          simp only [matchScheme, h1, hs, if_true, h2] at h
          cases h
        | some pr2 =>
          rcases pr2 with ⟨m2, r2⟩
          simp only [matchScheme, h1, hs, if_true, h2, Option.some.injEq,
            Prod.mk.injEq] at h
          obtain ⟨hm, hr⟩ := h
          subst hm
          have harg : (m1 ++ [c] ++ m2) ++ t = m1 ++ (c :: (m2 ++ t)) := by
            simp
          rw [harg]
          simp only [matchScheme,
            dropLitIC_replay uhttp s m1 (c :: cs) h1 (c :: (m2 ++ t)), hs,
            if_true, dropLitIC_replay uhost cs m2 r2 h2 t]
      · have hs' : icEq 's' c = false := by simpa using hs
        cases h2 : dropLitIC uhost (c :: cs) with
        | none =>
          simp only [matchScheme, h1, hs', Bool.false_eq_true, if_false,
            h2] at h
          cases h
        | some pr2 =>
          rcases pr2 with ⟨m2, r2⟩
          simp only [matchScheme, h1, hs', Bool.false_eq_true, if_false, h2,
            Option.some.injEq, Prod.mk.injEq] at h
          obtain ⟨hm, hr⟩ := h
          subst hm
          obtain ⟨m2t, hm2, hic⟩ := dropLitIC_cons_shape ':'
            ['/', '/', 'g', 'i', 't', 'h', 'u', 'b', '.', 'c', 'o', 'm', '/']
            c cs m2 r2 h2
          subst hm2
          have harg : (m1 ++ c :: m2t) ++ t = m1 ++ (c :: (m2t ++ t)) := by
            simp
          rw [harg]
          have hrep := dropLitIC_replay uhost (c :: cs) (c :: m2t) r2 h2 t
          rw [List.cons_append] at hrep
          simp only [matchScheme,
            dropLitIC_replay uhttp s m1 (c :: cs) h1 (c :: (m2t ++ t)), hs',
            Bool.false_eq_true, if_false, hrep]

/-- Everything `takeWhile` keeps satisfies the predicate. -/
theorem mem_takeWhile_pred (p : Char → Bool) :
    ∀ (l : List Char) (x : Char), x ∈ l.takeWhile p → p x = true := by
  intro l
  induction l with
  | nil => intro x h; cases h
  | cons c cs ih =>
    intro x h
    by_cases hc : p c = true
    · rw [List.takeWhile_cons, if_pos hc] at h
      rcases List.mem_cons.mp h with h1 | h1
      · rw [h1]; exact hc
      · exact ih x h1
    · rw [List.takeWhile_cons, if_neg hc] at h
      cases h

/-- `takeWhile`/`dropWhile` pass over a run of satisfying characters. -/
theorem takeWhile_append_run (p : Char → Bool) :
    ∀ (xs ys : List Char), (∀ x ∈ xs, p x = true) →
      (xs ++ ys).takeWhile p = xs ++ ys.takeWhile p
      ∧ (xs ++ ys).dropWhile p = ys.dropWhile p := by
  intro xs
  induction xs with
  | nil => intro ys h; exact ⟨rfl, rfl⟩
  | cons x xs ih =>
    intro ys h
    have hx : p x = true := h x (List.mem_cons_self x xs)
    have hrest : ∀ y ∈ xs, p y = true := fun y hy => h y (List.mem_cons_of_mem x hy)
    constructor
    · rw [List.cons_append, List.takeWhile_cons, if_pos hx, (ih ys hrest).1,
        List.cons_append]
    · rw [List.cons_append, List.dropWhile_cons, if_pos hx, (ih ys hrest).2]

/-- A string matched by the source regex satisfies the (amended) GitHub
address shape predicate. -/
theorem matchUrlAt_loose (s m r : List Char)
    (h : matchUrlAt s = some (m, r)) : repoAddrLoose (String.mk m) = true := by
  cases hsc : matchScheme s with
  | none => simp only [matchUrlAt, hsc] at h; cases h
  | some pr =>
    rcases pr with ⟨mh, r3⟩
    cases hdw : r3.dropWhile ownerChar with
    | nil => simp only [matchUrlAt, hsc, hdw] at h; cases h
    | cons c r5 =>
      simp only [matchUrlAt, hsc, hdw] at h
      by_cases hc : c = '/'
      · subst hc
        rw [if_pos rfl] at h
        by_cases h1 : (r3.takeWhile ownerChar).isEmpty = true
        · rw [if_pos h1] at h; cases h
        · rw [if_neg h1] at h
          by_cases h2 : (r5.takeWhile repoChar).isEmpty = true
          · rw [if_pos h2] at h; cases h
          · rw [if_neg h2] at h
            by_cases h3 : lookaheadOk (r5.dropWhile repoChar) = true
            · rw [if_pos h3] at h
              injection h with h4
              injection h4 with hm hr
              subst hm
              have hmsch : matchScheme (mh ++ (r3.takeWhile ownerChar
                  ++ '/' :: r5.takeWhile repoChar))
                  = some (mh, r3.takeWhile ownerChar
                      ++ '/' :: r5.takeWhile repoChar) :=
                matchScheme_replay s mh r3 hsc _
              have hrun : ∀ x ∈ r3.takeWhile ownerChar, ownerChar x = true :=
                fun x hx => mem_takeWhile_pred ownerChar r3 x hx
              have hsplit := takeWhile_append_run ownerChar
                (r3.takeWhile ownerChar) ('/' :: r5.takeWhile repoChar) hrun
              have hslash : ownerChar '/' = false := by decide
              have hdw2 : ((r3.takeWhile ownerChar
                  ++ '/' :: r5.takeWhile repoChar).dropWhile ownerChar)
                  = '/' :: r5.takeWhile repoChar := by
                rw [hsplit.2, List.dropWhile_cons, hslash]
                simp
              have htw2 : ((r3.takeWhile ownerChar
                  ++ '/' :: r5.takeWhile repoChar).takeWhile ownerChar)
                  = r3.takeWhile ownerChar := by
                rw [hsplit.1, List.takeWhile_cons, hslash]
                simp
              have hall : (r5.takeWhile repoChar).all repoChar = true := by
                rw [List.all_eq_true]
                intro x hx
                exact mem_takeWhile_pred repoChar r5 x hx
              have hm0 : (String.mk (mh ++ (r3.takeWhile ownerChar
                  ++ '/' :: r5.takeWhile repoChar))).toList
                  = mh ++ (r3.takeWhile ownerChar
                      ++ '/' :: r5.takeWhile repoChar) := rfl
              show repoAddrLoose (String.mk (mh ++ r3.takeWhile ownerChar
                ++ '/' :: r5.takeWhile repoChar)) = true
              rw [List.append_assoc]
              simp only [repoAddrLoose, hm0, hmsch, hdw2]
              rw [if_pos trivial, htw2, hall]
              have h1' : (r3.takeWhile ownerChar).isEmpty = false := by
                simpa using h1
              have h2' : (r5.takeWhile repoChar).isEmpty = false := by
                simpa using h2
              rw [h1', h2']
              rfl
            · rw [if_neg h3] at h; cases h
      · rw [if_neg hc] at h; cases h

/-- Every string the scanner returns comes from a successful match of the
regex at some position. -/
theorem scanAux_mem :
    ∀ (fuel : Nat) (l : List Char) (s : String), s ∈ scanAux fuel l →
      ∃ l0 m r, matchUrlAt l0 = some (m, r) ∧ s = String.mk m := by
  intro fuel
  induction fuel with
  | zero => intro l s h; simp [scanAux] at h
  | succ fuel ih =>
    intro l s h
    cases l with
    | nil => simp [scanAux] at h
    | cons c cs =>
      unfold scanAux at h
      cases hm : matchUrlAt (c :: cs) with
      | some pr =>
        rcases pr with ⟨m, r⟩
        rw [hm] at h
        rcases List.mem_cons.mp h with h1 | h1
        · exact ⟨c :: cs, m, r, hm, h1⟩
        · exact ih r s h1
      | none =>
        rw [hm] at h
        exact ih cs s h

/- ### Extractor claim theorems -/

/-- C6: the extractor finds `https://github.com/owner/repo`, the same with a
`.git` suffix, and the same two URLs with the `http://` scheme, as well as
upper-case scheme and host; it finds nothing in a bare
`github.com/owner/repo` without a scheme, nor when only one path segment
follows the host. -/
theorem c6_extractor_match_cases :
    extract_github_urls "https://github.com/owner/repo"
      = ["https://github.com/owner/repo"]
    ∧ extract_github_urls "https://github.com/owner/repo.git"
      = ["https://github.com/owner/repo.git"]
    ∧ extract_github_urls "http://github.com/owner/repo"
      = ["http://github.com/owner/repo"]
    ∧ extract_github_urls "http://github.com/owner/repo.git"
      = ["http://github.com/owner/repo.git"]
    ∧ extract_github_urls "HTTPS://GITHUB.COM/owner/repo"
      = ["HTTPS://GITHUB.COM/owner/repo"]
    ∧ extract_github_urls "github.com/owner/repo" = []
    ∧ extract_github_urls "https://github.com/owner" = [] :=
  ⟨by decide, by decide, by decide, by decide, by decide, by decide, by decide⟩

/-- C7 counterexample: the extractor returns
`https://github.com/a/b/c`, which has a third `/`-separated path segment
after the host and so does not conform to the claimed two-segment address
pattern. -/
theorem c7_two_segment_counterexample :
    ("https://github.com/a/b/c"
      ∈ extract_github_urls "https://github.com/a/b/c")
    ∧ conformsRepoAddr "https://github.com/a/b/c" = false :=
  ⟨by decide, by decide⟩

/-- C7 (amended): every string the extractor returns has scheme `http` or
`https` and host `github.com` (case-insensitively), followed by `/`, a
non-empty owner segment without whitespace or `/`, another `/`, and a
non-empty repository part free of whitespace and closing quotes or
parentheses — but the repository part may itself contain further `/`
characters, so more than two path segments can be returned. -/
theorem c7_extracted_url_shape (text s : String)
    (h : s ∈ extract_github_urls text) : repoAddrLoose s = true := by
  unfold extract_github_urls at h
  obtain ⟨l0, m, r, hm, hs⟩ := scanAux_mem _ _ s (List.mem_dedup.mp h)
  rw [hs]
  exact matchUrlAt_loose l0 m r hm

/-- Witness for C7 (amended) at a URL extracted from surrounding text. -/
theorem c7_extracted_url_shape_witness :
    repoAddrLoose "https://github.com/a/b" = true
    ∧ ("https://github.com/a/b"
      ∈ extract_github_urls "see https://github.com/a/b here") :=
  ⟨c7_extracted_url_shape "see https://github.com/a/b here"
      "https://github.com/a/b" (by decide),
    by decide⟩
